import Mathlib

/-
Shallow embedding of the ddlc combat-value core (src/ability.rs and
src/skill.rs) and verification of its specification claims.

Modelling conventions:
* Rust `i32` is modelled as `Int`; no arithmetic in scope overflows 32 bits.
* Rust methods taking `&mut self` become state-passing functions returning
  the updated state (and the result, where there is one).
* `Rc<RefCell<AbilityModifier>>` sharing: claims that do not depend on
  aliasing use `AbilityModel`, which stores the modifier state inline;
  `AbilityModelRc` models the handles faithfully as indices into an
  explicit store of cells, including the `RefCell` double-`borrow_mut`
  panic that `value()` hits when both handles alias one cell.
* The `expect("ability2 should exist")` panic in `AbilityModel::value` is
  modelled by an `Option Int` result, `none` standing for the panic.
* Rust `f32` is modelled by exact rationals `Rat`.  Every float operation
  the claims touch (negation, multiplication by 0.5 or 1.0, comparison at
  integer points, the constants involved) is exact in `f32` at the
  magnitudes the claims use, so branch selection agrees with the code.
* Rust `/` on `i32` is truncating division toward zero, written `Int.tdiv`.
-/

namespace Ddlc

/-- `Ability` from src/ability.rs: six named kinds carrying an `i32`. -/
inductive Ability where
  | Strength (v : Int)
  | Dexterity (v : Int)
  | Stamina (v : Int)
  | Endurement (v : Int)
  | Luck (v : Int)
  | Intelligence (v : Int)
deriving DecidableEq

/-- `Ability::value`. -/
def Ability.value : Ability → Int
  | .Strength v => v
  | .Dexterity v => v
  | .Stamina v => v
  | .Endurement v => v
  | .Luck v => v
  | .Intelligence v => v

/-- `AbilityModifier` from src/ability.rs: the ability, the two positive
slots, the two negative slots, and the lazy cache `current`. -/
structure AbilityModifier where
  ability : Ability
  modifier_positive : Int × Int
  modifier_negative : Int × Int
  current : Option Int
deriving DecidableEq

/-- `impl From<Ability> for AbilityModifier`. -/
def AbilityModifier.fromAbility (ability : Ability) : AbilityModifier :=
  { ability := ability
    modifier_positive := (0, 0)
    modifier_negative := (0, 0)
    current := none }

/-- `AbilityModifier::apply_positive`. -/
def AbilityModifier.apply_positive (s : AbilityModifier) (modifier : Int) :
    AbilityModifier :=
  if modifier ≥ s.modifier_positive.1 then
    { s with
      modifier_positive := (modifier, s.modifier_positive.1)
      current := none }
  else if modifier ≥ s.modifier_positive.2 then
    { s with
      modifier_positive := (s.modifier_positive.1, modifier)
      current := none }
  else s

/-- `AbilityModifier::apply_negative`: the sign is normalized first, then
the mirror-image insertion with `<=` comparisons. -/
def AbilityModifier.apply_negative (s : AbilityModifier) (modifier : Int) :
    AbilityModifier :=
  let m := if modifier > 0 then (-1) * modifier else modifier
  if m ≤ s.modifier_negative.1 then
    { s with
      modifier_negative := (m, s.modifier_negative.1)
      current := none }
  else if m ≤ s.modifier_negative.2 then
    { s with
      modifier_negative := (s.modifier_negative.1, m)
      current := none }
  else s

/-- `AbilityModifier::value` (`&mut self`): returns the cached total when
present, otherwise computes base + positive slots + negative slots, caches
it and returns it.  Result is (returned value, updated state). -/
def AbilityModifier.value (s : AbilityModifier) : Int × AbilityModifier :=
  match s.current with
  | some val => (val, s)
  | none =>
    let val := s.ability.value
      + (s.modifier_positive.1 + s.modifier_positive.2)
      + (s.modifier_negative.1 + s.modifier_negative.2)
    (val, { s with current := some val })

/-- `AbilityModelType` from src/ability.rs. -/
inductive AbilityModelType where
  | Equal
  | WeigthedOnPrior
  | Single
deriving DecidableEq

/-- `AbilityModel`: a blend-rule tag, one modifier and an optional second. -/
structure AbilityModel where
  model_type : AbilityModelType
  ability1 : AbilityModifier
  ability2 : Option AbilityModifier
deriving DecidableEq

/-- `AbilityModel::new`: `Single` always succeeds; any other rule without a
second modifier returns the rejected rule tag as the error. -/
def AbilityModel.new (model_type : AbilityModelType)
    (ability1 : AbilityModifier) (ability2 : Option AbilityModifier) :
    Except AbilityModelType AbilityModel :=
  match model_type with
  | .Single => .ok ⟨model_type, ability1, ability2⟩
  | _ =>
    match ability2 with
    | none => .error model_type
    | some _ => .ok ⟨model_type, ability1, ability2⟩

/-- `AbilityModel::value`: `none` models the `expect("ability2 should
exist")` panic reached when a two-modifier rule has no second modifier.
Rust `/` on `i32` truncates toward zero, hence `Int.tdiv`. -/
def AbilityModel.value (m : AbilityModel) : Option Int :=
  match m.model_type with
  | .Single => some (m.ability1.value).1
  | .Equal =>
    match m.ability2 with
    | none => none
    | some a2 => some (Int.tdiv ((m.ability1.value).1 + (a2.value).1) 2)
  | .WeigthedOnPrior =>
    match m.ability2 with
    | none => none
    | some a2 => some (Int.tdiv ((m.ability1.value).1 * 2 + (a2.value).1) 3)

/-- Why a panicking `AbilityModel::value` call fails: the
`expect("ability2 should exist")` on a missing second modifier, or a
`RefCell` double `borrow_mut` when both handles alias one cell. -/
inductive ValuePanic where
  | missingSecond
  | doubleBorrow
deriving DecidableEq

/-- A store of shared `AbilityModifier` cells.  An
`Rc<RefCell<AbilityModifier>>` handle is an index into the store; equal
indices mean the same cell. -/
def Store : Type := Nat → AbilityModifier

/-- Writing one cell of the store. -/
def updateStore (σ : Store) (r : Nat) (s : AbilityModifier) : Store :=
  fun i => if i = r then s else σ i

/-- `AbilityModel` with the `Rc<RefCell<AbilityModifier>>` handles
modelled faithfully as store indices, so that aliasing between `ability1`
and `ability2` is expressible. -/
structure AbilityModelRc where
  model_type : AbilityModelType
  ability1 : Nat
  ability2 : Option Nat
deriving DecidableEq

/-- `AbilityModel::new` over shared handles: validation only checks the
rule tag and the presence of the second handle, never distinctness. -/
def AbilityModelRc.new (model_type : AbilityModelType) (ability1 : Nat)
    (ability2 : Option Nat) : Except AbilityModelType AbilityModelRc :=
  match model_type with
  | .Single => .ok ⟨model_type, ability1, ability2⟩
  | _ =>
    match ability2 with
    | none => .error model_type
    | some _ => .ok ⟨model_type, ability1, ability2⟩

/-- `AbilityModel::value` over shared cells.  In the two-modifier arms
Rust keeps the first `borrow_mut()`'s `RefMut` temporary alive across the
whole arithmetic expression, so the second `borrow_mut()` panics with
`BorrowMutError` exactly when both handles point to the same cell; the
`expect("ability2 should exist")` panics when there is no second handle.
Both panics are modelled as `Except.error` with the panic cause. -/
def AbilityModelRc.value (m : AbilityModelRc) (σ : Store) :
    Except ValuePanic (Int × Store) :=
  match m.model_type with
  | .Single =>
    .ok (((σ m.ability1).value).1,
      updateStore σ m.ability1 ((σ m.ability1).value).2)
  | .Equal =>
    match m.ability2 with
    | none => .error .missingSecond
    | some r2 =>
      if m.ability1 = r2 then .error .doubleBorrow
      else
        let σ1 := updateStore σ m.ability1 ((σ m.ability1).value).2
        .ok (Int.tdiv (((σ m.ability1).value).1 + ((σ1 r2).value).1) 2,
          updateStore σ1 r2 ((σ1 r2).value).2)
  | .WeigthedOnPrior =>
    match m.ability2 with
    | none => .error .missingSecond
    | some r2 =>
      if m.ability1 = r2 then .error .doubleBorrow
      else
        let σ1 := updateStore σ m.ability1 ((σ m.ability1).value).2
        .ok (Int.tdiv (((σ m.ability1).value).1 * 2 + ((σ1 r2).value).1) 3,
          updateStore σ1 r2 ((σ1 r2).value).2)

/-- A concrete store for witnesses: cell `n` holds Stamina(100 + n). -/
def testStore : Store :=
  fun n => AbilityModifier.fromAbility (.Stamina (100 + (n : Int)))

/-- `SkillEffect` from src/skill.rs; `min` and `max` are `f32` in Rust,
modelled as exact rationals. -/
structure SkillEffect where
  name : String
  min : Rat
  max : Rat
  border : Int
deriving DecidableEq

/-- `SkillEffect::new`. -/
def SkillEffect.new (name : String) (min max : Rat) (border : Int) :
    SkillEffect :=
  { name := name, min := min, max := max, border := border }

/-- `SkillEffect::new_damage`: max is 5 times min. -/
def SkillEffect.new_damage (name : String) (min : Rat) (border : Int) :
    SkillEffect :=
  SkillEffect.new name min (min * 5) border

/-- `SkillEffect::new_recover`: max is 3 times min. -/
def SkillEffect.new_recover (name : String) (min : Rat) (border : Int) :
    SkillEffect :=
  SkillEffect.new name min (min * 3) border

/-- `SkillEffect::cause_damage`: the four-segment damage curve.  The cast
`sd as f32` is modelled by the exact coercion `(sd : Rat)`. -/
def SkillEffect.cause_damage (e : SkillEffect) (sd : Int)
    (border_factor : Rat) : Rat :=
  let min_threshold : Rat := (-1) * (e.border : Rat) * border_factor
  if sd ≥ e.border then e.max
  else if (sd : Rat) ≤ min_threshold then 1
  else if sd ≥ 0 then e.min + (e.max - e.min) / (e.border : Rat) * (sd : Rat)
  else 1 + (e.min - 1) / min_threshold * (sd : Rat)

/-- `SkillEffect::cause_effect`: the three-segment generic effect curve. -/
def SkillEffect.cause_effect (e : SkillEffect) (sd : Int) : Rat :=
  if sd ≥ e.border then e.max
  else if sd ≤ 0 then e.min
  else e.min + (e.max - e.min) / (e.border : Rat) * (sd : Rat)

/-- `SkillEffect::damage_from_enemy`: feeds the attacker/defender value
difference into `cause_damage` with border factor 0.5; `none` propagates a
panicking model value. -/
def SkillEffect.damage_from_enemy (e : SkillEffect)
    (attacker_model defender_model : AbilityModel) : Option Rat :=
  match attacker_model.value, defender_model.value with
  | some av, some dv => some (e.cause_damage (av - dv) (1/2))
  | _, _ => none

/-- `SkillEffect::damage_to_enemy`: same difference, border factor 1.0. -/
def SkillEffect.damage_to_enemy (e : SkillEffect)
    (attacker_model defender_model : AbilityModel) : Option Rat :=
  match attacker_model.value, defender_model.value with
  | some av, some dv => some (e.cause_damage (av - dv) 1)
  | _, _ => none

/-- Instrumented variant of `cause_damage` for the division-safety claim:
identical branch structure, but each division-containing branch yields
`none` when its divisor is zero. -/
def SkillEffect.cause_damage_checked (e : SkillEffect) (sd : Int)
    (border_factor : Rat) : Option Rat :=
  let min_threshold : Rat := (-1) * (e.border : Rat) * border_factor
  if sd ≥ e.border then some e.max
  else if (sd : Rat) ≤ min_threshold then some 1
  else if sd ≥ 0 then
    if (e.border : Rat) = 0 then none
    else some (e.min + (e.max - e.min) / (e.border : Rat) * (sd : Rat))
  else
    if min_threshold = 0 then none
    else some (1 + (e.min - 1) / min_threshold * (sd : Rat))

/-- Instrumented variant of `cause_effect` for the division-safety claim. -/
def SkillEffect.cause_effect_checked (e : SkillEffect) (sd : Int) :
    Option Rat :=
  if sd ≥ e.border then some e.max
  else if sd ≤ 0 then some e.min
  else
    if (e.border : Rat) = 0 then none
    else some (e.min + (e.max - e.min) / (e.border : Rat) * (sd : Rat))

/-! ## Derived notions used by the claims -/

/-- The total an `AbilityModifier` stands for: base ability value plus both
positive slots plus both negative slots. -/
def AbilityModifier.total (s : AbilityModifier) : Int :=
  s.ability.value
    + (s.modifier_positive.1 + s.modifier_positive.2)
    + (s.modifier_negative.1 + s.modifier_negative.2)

/-- Cache coherence: `current` is either empty or holds the total. -/
def AbilityModifier.cacheOK (s : AbilityModifier) : Prop :=
  s.current = none ∨ s.current = some s.total

/-- One observable operation on an `AbilityModifier`: a positive
application, a negative application, or a `value()` read. -/
inductive ModOp where
  | pos (m : Int)
  | neg (m : Int)
  | read
deriving DecidableEq

/-- Apply one operation to a modifier state. -/
def stepOp (s : AbilityModifier) : ModOp → AbilityModifier
  | .pos m => s.apply_positive m
  | .neg m => s.apply_negative m
  | .read => (s.value).2

/-- The state reached from `From<Ability>` construction by a sequence of
operations. -/
def runOps (a : Ability) (ops : List ModOp) : AbilityModifier :=
  ops.foldl stepOp (AbilityModifier.fromAbility a)

/-- `(p.1, p.2)` are the two largest elements of the multiset `L`, sorted
descending: both are drawn from `L` (with multiplicity) and any element of
`L` larger than `p.2` occurs in `L` no more often than among `p`. -/
def twoLargest (L : Multiset Int) (p : Int × Int) : Prop :=
  p.2 ≤ p.1 ∧ ({p.1, p.2} : Multiset Int) ≤ L ∧
    ∀ x : Int, p.2 < x → L.count x ≤ ({p.1, p.2} : Multiset Int).count x

/-- The positive-insertion rule exactly as the spec words it: shift into
slot 0 bumping the old slot 0 into slot 1, else replace slot 1 only, else
no-op; mutating branches clear the cache. -/
def specApplyPositive (s : AbilityModifier) (amount : Int) :
    AbilityModifier :=
  if amount ≥ s.modifier_positive.1 then
    { s with
      modifier_positive := (amount, s.modifier_positive.1)
      current := none }
  else if amount ≥ s.modifier_positive.2 then
    { s with
      modifier_positive := (s.modifier_positive.1, amount)
      current := none }
  else s

/-- The negative-application rule exactly as the spec words it: normalize
the sign first (a positive argument is negated), then the mirror-image
insertion with `≤` comparisons, slot 0 most negative. -/
def specApplyNegative (s : AbilityModifier) (amount : Int) :
    AbilityModifier :=
  let a := if amount > 0 then -amount else amount
  if a ≤ s.modifier_negative.1 then
    { s with
      modifier_negative := (a, s.modifier_negative.1)
      current := none }
  else if a ≤ s.modifier_negative.2 then
    { s with
      modifier_negative := (s.modifier_negative.1, a)
      current := none }
  else s

/-! ## Cache-coherence lemmas -/

theorem apply_positive_self_or_clears (s : AbilityModifier) (m : Int) :
    s.apply_positive m = s ∨ (s.apply_positive m).current = none := by
  unfold AbilityModifier.apply_positive
  split_ifs <;> simp

theorem apply_negative_self_or_clears (s : AbilityModifier) (m : Int) :
    s.apply_negative m = s ∨ (s.apply_negative m).current = none := by
  simp only [AbilityModifier.apply_negative]
  split_ifs <;> simp

theorem cacheOK_apply_positive (s : AbilityModifier) (m : Int)
    (h : s.cacheOK) : (s.apply_positive m).cacheOK := by
  unfold AbilityModifier.apply_positive
  split_ifs <;> first
    | exact Or.inl rfl
    | exact h

theorem cacheOK_apply_negative (s : AbilityModifier) (m : Int)
    (h : s.cacheOK) : (s.apply_negative m).cacheOK := by
  simp only [AbilityModifier.apply_negative]
  split_ifs <;> first
    | exact Or.inl rfl
    | exact h

theorem cacheOK_value (s : AbilityModifier) (h : s.cacheOK) :
    ((s.value).2).cacheOK := by
  cases hc : s.current with
  | some v => simpa [AbilityModifier.value, hc] using h
  | none =>
    right
    simp [AbilityModifier.value, hc, AbilityModifier.total]

theorem value_fst_eq_total (s : AbilityModifier) (h : s.cacheOK) :
    (s.value).1 = s.total := by
  rcases h with h | h <;>
    simp [AbilityModifier.value, h, AbilityModifier.total]

theorem cacheOK_stepOp (s : AbilityModifier) (op : ModOp)
    (h : s.cacheOK) : (stepOp s op).cacheOK := by
  cases op with
  | pos m => exact cacheOK_apply_positive s m h
  | neg m => exact cacheOK_apply_negative s m h
  | read => exact cacheOK_value s h

theorem cacheOK_foldl (ops : List ModOp) :
    ∀ s : AbilityModifier, s.cacheOK → (ops.foldl stepOp s).cacheOK := by
  induction ops with
  | nil => intro s h; exact h
  | cons op ops ih =>
    intro s h
    exact ih (stepOp s op) (cacheOK_stepOp s op h)

theorem cacheOK_runOps (a : Ability) (ops : List ModOp) :
    (runOps a ops).cacheOK :=
  cacheOK_foldl ops (AbilityModifier.fromAbility a) (Or.inl rfl)

/-- C1: in every `AbilityModifier` state reachable from `From<Ability>` by
`apply_positive`, `apply_negative` and `value` calls, the cache `current`
is `none` or holds exactly base + positive slots + negative slots; each
`apply_positive`/`apply_negative` either leaves the state unchanged or
clears the cache, and the next `value()` returns the total over the new
slots. -/
theorem c1_cache_invariant (a : Ability) (ops : List ModOp) (m : Int) :
    (runOps a ops).cacheOK
    ∧ ((runOps a ops).value).1 = (runOps a ops).total
    ∧ ((runOps a ops).apply_positive m = runOps a ops
        ∨ ((runOps a ops).apply_positive m).current = none)
    ∧ ((runOps a ops).apply_negative m = runOps a ops
        ∨ ((runOps a ops).apply_negative m).current = none)
    ∧ (((runOps a ops).apply_positive m).value).1
        = ((runOps a ops).apply_positive m).total
    ∧ (((runOps a ops).apply_negative m).value).1
        = ((runOps a ops).apply_negative m).total := by
  have hok := cacheOK_runOps a ops
  exact ⟨hok, value_fst_eq_total _ hok,
    apply_positive_self_or_clears _ m,
    apply_negative_self_or_clears _ m,
    value_fst_eq_total _ (cacheOK_apply_positive _ m hok),
    value_fst_eq_total _ (cacheOK_apply_negative _ m hok)⟩

/-- C8: a second `value()` call with no intervening mutation returns the
same integer and leaves the state unchanged. -/
theorem c8_value_idempotent (s : AbilityModifier) :
    (((s.value).2).value).1 = (s.value).1
    ∧ (((s.value).2).value).2 = (s.value).2 := by
  cases hc : s.current <;> simp [AbilityModifier.value, hc]

/-- Sign normalization in `apply_negative` is symmetric in the sign of the
argument. -/
theorem normalize_neg_symm (m : Int) :
    (if m > 0 then (-1) * m else m)
      = (if -m > 0 then (-1) * (-m) else -m) := by
  split_ifs <;> omega

/-- C7: `apply_negative` treats `amount` and `-amount` identically, follows
the spec's mirror-image `≤`-insertion rule after sign normalization, and
on the worked example (base 100, +30/+50/+40 then −40/−50/−60) yields 80. -/
theorem c7_apply_negative (s : AbilityModifier) (amount : Int) :
    s.apply_negative amount = s.apply_negative (-amount)
    ∧ s.apply_negative amount = specApplyNegative s amount
    ∧ ((((((((AbilityModifier.fromAbility (.Intelligence 100)
          ).apply_positive 30).apply_positive 50).apply_positive 40
          ).apply_negative (-40)).apply_negative (-50)).apply_negative (-60)
          ).value).1 = 80 := by
  refine ⟨?_, ?_, by decide⟩
  · unfold AbilityModifier.apply_negative
    rw [normalize_neg_symm]
  · unfold AbilityModifier.apply_negative specApplyNegative
    have h : ((-1) * amount) = -amount := by omega
    rw [h]

/-- A model whose rule is `Single` or whose second handle is present
never reaches the `expect("ability2 should exist")` branch, whatever the
store. -/
theorem value_never_missingSecond (m : AbilityModelRc)
    (hm : m.model_type = .Single ∨ m.ability2 ≠ none) (τ : Store) :
    m.value τ ≠ Except.error ValuePanic.missingSecond := by
  obtain ⟨t, a1, a2⟩ := m
  cases t with
  | Single => simp [AbilityModelRc.value]
  | Equal =>
    cases a2 with
    | none => simp at hm
    | some r2 =>
      simp only [AbilityModelRc.value]
      split_ifs <;> simp
  | WeigthedOnPrior =>
    cases a2 with
    | none => simp at hm
    | some r2 =>
      simp only [AbilityModelRc.value]
      split_ifs <;> simp

/-- A model whose rule is `Single` or whose second handle is present, and
whose handles do not alias one cell, has a successful `value()`. -/
theorem value_ok_of_unaliased (m : AbilityModelRc) (σ : Store)
    (hm : m.model_type = .Single ∨ m.ability2 ≠ none)
    (hnoalias : ∀ r2, m.ability2 = some r2 → m.ability1 ≠ r2) :
    ∃ v : Int, ∃ σ2 : Store, m.value σ = Except.ok (v, σ2) := by
  obtain ⟨t, a1, a2⟩ := m
  cases t with
  | Single => exact ⟨_, _, rfl⟩
  | Equal =>
    cases a2 with
    | none => simp at hm
    | some r2 =>
      simp only [AbilityModelRc.value]
      rw [if_neg (hnoalias r2 rfl)]
      exact ⟨_, _, rfl⟩
  | WeigthedOnPrior =>
    cases a2 with
    | none => simp at hm
    | some r2 =>
      simp only [AbilityModelRc.value]
      rw [if_neg (hnoalias r2 rfl)]
      exact ⟨_, _, rfl⟩

/-- C9 counterexample: construction accepts an `Equal` model whose two
handles alias the same cell (index 0), and `value()` on it panics with
the `RefCell` double `borrow_mut`; so `value()` on an `Ok`-constructed
model is not total, refuting the claim's conclusion. -/
theorem c9_aliased_model_panics :
    AbilityModelRc.new .Equal 0 (some 0)
        = Except.ok (AbilityModelRc.mk .Equal 0 (some 0))
    ∧ (AbilityModelRc.mk .Equal 0 (some 0)).value testStore
        = Except.error ValuePanic.doubleBorrow :=
  ⟨rfl, rfl⟩

/-- C9 amended: on any model `Ok`-returned by `new`, `value()` never
reaches the `expect("ability2 should exist")` branch — construction
rejects two-modifier rules without a second modifier — and whenever the
model's two handles reference distinct cells, `value()` succeeds.  (With
aliased handles it can still panic, but only via the `RefCell` double
borrow, never the missing-second-modifier `expect`.) -/
theorem c9_value_total_unaliased (t : AbilityModelType) (a1 : Nat)
    (a2 : Option Nat) (m : AbilityModelRc) (σ : Store)
    (h : AbilityModelRc.new t a1 a2 = Except.ok m)
    (hnoalias : ∀ r2, m.ability2 = some r2 → m.ability1 ≠ r2) :
    (∀ τ : Store, m.value τ ≠ Except.error ValuePanic.missingSecond)
    ∧ ∃ v : Int, ∃ σ2 : Store, m.value σ = Except.ok (v, σ2) := by
  have hm : m = AbilityModelRc.mk t a1 a2
      ∧ (t = .Single ∨ a2 ≠ none) := by
    cases t <;> cases a2 <;>
      simp only [AbilityModelRc.new, Except.ok.injEq] at h <;>
      first
        | exact ⟨h.symm, by simp⟩
        | exact absurd h (by simp)
  obtain ⟨hmk, hok⟩ := hm
  subst hmk
  exact ⟨value_never_missingSecond _ hok,
    value_ok_of_unaliased _ σ hok hnoalias⟩

/-- Witness for C9 at an unaliased concrete `Equal` model (cells 0, 1). -/
theorem c9_value_total_unaliased_witness :
    AbilityModelRc.new .Equal 0 (some 1)
        = Except.ok (AbilityModelRc.mk .Equal 0 (some 1))
    ∧ ((∀ τ : Store, (AbilityModelRc.mk .Equal 0 (some 1)).value τ
          ≠ Except.error ValuePanic.missingSecond)
        ∧ ∃ v : Int, ∃ σ2 : Store,
            (AbilityModelRc.mk .Equal 0 (some 1)).value testStore
              = Except.ok (v, σ2)) :=
  ⟨rfl, c9_value_total_unaliased .Equal 0 (some 1)
    (AbilityModelRc.mk .Equal 0 (some 1)) testStore rfl
    (by intro r2 hr2; simp_all; omega)⟩

/-- C6: `AbilityModel::new` succeeds exactly for the `Single` rule or when
a second modifier is supplied, and fails exactly for a non-`Single` rule
without one, returning the rejected rule tag as the error. -/
theorem c6_new_error_characterization (t : AbilityModelType)
    (a1 : AbilityModifier) (a2 : Option AbilityModifier) :
    ((∃ m, AbilityModel.new t a1 a2 = Except.ok m)
        ↔ (t = .Single ∨ a2 ≠ none))
    ∧ (AbilityModel.new t a1 a2 = Except.error t
        ↔ (t ≠ .Single ∧ a2 = none)) := by
  cases t <;> cases a2 <;> simp [AbilityModel.new]

/-- Witness for C6: a failing and a succeeding concrete construction. -/
theorem c6_new_error_characterization_witness :
    AbilityModel.new .Equal (AbilityModifier.fromAbility (.Stamina 100))
        none = Except.error .Equal
    ∧ ∃ m, AbilityModel.new .Single
        (AbilityModifier.fromAbility (.Stamina 100)) none = Except.ok m :=
  ⟨(c6_new_error_characterization .Equal
      (AbilityModifier.fromAbility (.Stamina 100)) none).2.mpr
      ⟨by simp, rfl⟩,
    (c6_new_error_characterization .Single
      (AbilityModifier.fromAbility (.Stamina 100)) none).1.mpr
      (Or.inl rfl)⟩

/-- C3 counterexample: with modifier values −1 and −2, the `Equal` model
computes `Int.tdiv (-3) 2 = -1` (Rust truncation toward zero), while floor
division would give −2; so "integer floor division ... for all signed
values including negative sums" is false of the code. -/
theorem c3_equal_not_floor :
    ((AbilityModifier.fromAbility (Ability.Stamina (-1))).value).1 = -1
    ∧ ((AbilityModifier.fromAbility (Ability.Stamina (-2))).value).1 = -2
    ∧ (AbilityModel.mk .Equal (AbilityModifier.fromAbility (.Stamina (-1)))
        (some (AbilityModifier.fromAbility (.Stamina (-2))))).value
        = some (-1)
    ∧ Int.fdiv ((-1) + (-2)) 2 = -2
    ∧ ((-1 : Int) ≠ -2) := by
  refine ⟨rfl, rfl, rfl, by decide, by decide⟩

/-- C3 amended: `Equal` blends as `(v1 + v2)` under *truncating* division
by 2 and `WeigthedOnPrior` as `(v1*2 + v2)` under truncating division by
3 (`Int.tdiv`, Rust `/` semantics, which agrees with floor only on
nonnegative sums); `EqualAverage` of 101 and 100 is 100. -/
theorem c3_blend_arithmetic (m1 m2 : AbilityModifier) :
    AbilityModel.new .Equal m1 (some m2)
        = Except.ok (AbilityModel.mk .Equal m1 (some m2))
    ∧ (AbilityModel.mk .Equal m1 (some m2)).value
        = some (Int.tdiv ((m1.value).1 + (m2.value).1) 2)
    ∧ AbilityModel.new .WeigthedOnPrior m1 (some m2)
        = Except.ok (AbilityModel.mk .WeigthedOnPrior m1 (some m2))
    ∧ (AbilityModel.mk .WeigthedOnPrior m1 (some m2)).value
        = some (Int.tdiv ((m1.value).1 * 2 + (m2.value).1) 3)
    ∧ (AbilityModel.mk .Equal (AbilityModifier.fromAbility (.Stamina 101))
        (some (AbilityModifier.fromAbility (.Stamina 100)))).value
        = some 100 := by
  exact ⟨rfl, rfl, rfl, rfl, by decide⟩

/-- C5: the code evaluated on the §8 scenario.  The attacker `Single`
model over Intelligence(300) is constructed and has value 300, and the
damage curve of `new_damage("d", 2000.0, 150)` at `sd = 100 − 300 = −200`
with border factor 0.5 is 1.0; but the defender `Equal` model with only
one modifier is REJECTED (`Err(Equal)`), although the repository's own
test (`cause_damage` in src/skill.rs) expects that construction to
succeed. -/
theorem c5_scenario_code_behavior :
    AbilityModel.new .Single
        (AbilityModifier.fromAbility (.Intelligence 300)) none
      = Except.ok (AbilityModel.mk .Single
          (AbilityModifier.fromAbility (.Intelligence 300)) none)
    ∧ (AbilityModel.mk .Single
        (AbilityModifier.fromAbility (.Intelligence 300)) none).value
      = some 300
    ∧ AbilityModel.new .Equal
        (AbilityModifier.fromAbility (.Stamina 100)) none
      = Except.error .Equal
    ∧ (SkillEffect.new_damage "d" 2000 150).cause_damage (100 - 300) (1/2)
      = 1 := by
  refine ⟨rfl, rfl, rfl, ?_⟩
  norm_num [SkillEffect.cause_damage, SkillEffect.new_damage,
    SkillEffect.new]

/-- C4 counterexample: with `border = 0` the saturate-high branch
`sd >= border` fires first, so a `SkillEffect` with min 0, max 5,
border 0 at `sd = 0`, border factor 1.0 satisfies
`sd ≤ -border*border_factor` yet returns `max = 5`, not 1.0. -/
theorem c4_floor_fails_at_border_zero :
    (((0 : Int) : Rat))
        ≤ (-1) * (((SkillEffect.mk "e" 0 5 0).border : Int) : Rat) * 1
    ∧ (SkillEffect.mk "e" 0 5 0).cause_damage 0 1 = 5
    ∧ ((5 : Rat) ≠ 1) := by
  refine ⟨by norm_num, ?_, by norm_num⟩
  norm_num [SkillEffect.cause_damage]

/-- C4 amended: for every `SkillEffect` whose `border` is at least 1,
every border factor in 0.5, 1.0 and every integer `sd` at or below
`-border * border_factor`, `cause_damage` returns exactly 1.0. -/
theorem c4_damage_floor (e : SkillEffect) (sd : Int) (bf : Rat)
    (hbf : bf = 1/2 ∨ bf = 1) (hb : 1 ≤ e.border)
    (hsd : (sd : Rat) ≤ (-1) * (e.border : Rat) * bf) :
    e.cause_damage sd bf = 1 := by
  have hbQ : (1 : Rat) ≤ (e.border : Rat) := by exact_mod_cast hb
  have hlow : (sd : Rat) < (e.border : Rat) := by
    rcases hbf with h | h <;> subst h <;> nlinarith
  have hsdlt : sd < e.border := by exact_mod_cast hlow
  simp only [SkillEffect.cause_damage]
  rw [if_neg (by omega), if_pos hsd]

/-- Witness for C4 at the border-150 damage curve and `sd = −200`. -/
theorem c4_damage_floor_witness :
    (((1 : Rat)/2 = 1/2 ∨ (1 : Rat)/2 = 1)
      ∧ 1 ≤ (SkillEffect.new_damage "d" 2000 150).border
      ∧ (((-200 : Int) : Rat))
          ≤ (-1) * ((SkillEffect.new_damage "d" 2000 150).border : Rat)
              * (1/2))
    ∧ (SkillEffect.new_damage "d" 2000 150).cause_damage (-200) (1/2)
        = 1 :=
  ⟨⟨Or.inl rfl, by decide, by norm_num [SkillEffect.new_damage,
      SkillEffect.new]⟩,
    c4_damage_floor (SkillEffect.new_damage "d" 2000 150) (-200) (1/2)
      (Or.inl rfl) (by decide)
      (by norm_num [SkillEffect.new_damage, SkillEffect.new])⟩

/-- C10: the checked curve evaluators, which refuse to divide by zero,
agree everywhere with the code's evaluators: each division-containing
branch is reached only with a nonzero divisor (the upper linear branch
forces `0 ≤ sd < border`, the lower one `min_threshold < sd < 0`). -/
theorem c10_no_division_by_zero (e : SkillEffect) (sd : Int) (bf : Rat)
    (hbf : bf = 1/2 ∨ bf = 1) :
    e.cause_damage_checked sd bf = some (e.cause_damage sd bf)
    ∧ e.cause_effect_checked sd = some (e.cause_effect sd) := by
  constructor
  · simp only [SkillEffect.cause_damage, SkillEffect.cause_damage_checked]
    split_ifs with h1 h2 h3 h4 h5
    · rfl
    · rfl
    · exfalso
      have hb : 0 < e.border := by omega
      have : ((e.border : Rat)) ≠ 0 := by
        exact_mod_cast (by omega : (e.border : Int) ≠ 0)
      exact this h4
    · rfl
    · exfalso
      have hsd0 : (sd : Rat) < 0 := by exact_mod_cast (by omega : sd < 0)
      rw [h5] at h2
      simp at h2
      linarith
    · rfl
  · simp only [SkillEffect.cause_effect, SkillEffect.cause_effect_checked]
    split_ifs with h1 h2 h3
    · rfl
    · rfl
    · exfalso
      have hb : 0 < e.border := by omega
      have : ((e.border : Rat)) ≠ 0 := by
        exact_mod_cast (by omega : (e.border : Int) ≠ 0)
      exact this h3
    · rfl

/-- Witness for C10 at the border-150 damage curve, `sd = 7`, factor 1. -/
theorem c10_no_division_by_zero_witness :
    ((1 : Rat) = 1/2 ∨ (1 : Rat) = 1)
    ∧ (SkillEffect.new_damage "d" 2000 150).cause_damage_checked 7 1
        = some ((SkillEffect.new_damage "d" 2000 150).cause_damage 7 1)
    ∧ (SkillEffect.new_damage "d" 2000 150).cause_effect_checked 7
        = some ((SkillEffect.new_damage "d" 2000 150).cause_effect 7) :=
  ⟨Or.inr rfl,
    (c10_no_division_by_zero (SkillEffect.new_damage "d" 2000 150) 7 1
      (Or.inr rfl)).1,
    (c10_no_division_by_zero (SkillEffect.new_damage "d" 2000 150) 7 1
      (Or.inr rfl)).2⟩

/-! ## Two-largest tracking for the positive slots -/

theorem twoLargest_insert (L : Multiset Int) (a b m : Int)
    (h : twoLargest L (a, b)) :
    twoLargest (m ::ₘ L)
      (if m ≥ a then (m, a) else if m ≥ b then (a, m) else (a, b)) := by
  obtain ⟨hord, hsub, hcnt⟩ := h
  rw [Multiset.le_iff_count] at hsub
  split_ifs with h1 h2
  · refine ⟨h1, ?_, ?_⟩
    · rw [Multiset.le_iff_count]
      intro x
      have hx := hsub x
      simp only [Multiset.insert_eq_cons, Multiset.count_cons,
        Multiset.count_singleton, Multiset.count_zero] at hx ⊢
      split_ifs at hx ⊢ <;> omega
    · intro x hx
      have hLx := hcnt x (lt_of_le_of_lt hord hx)
      simp only [Multiset.insert_eq_cons, Multiset.count_cons,
        Multiset.count_singleton, Multiset.count_zero] at hLx ⊢
      split_ifs at hLx ⊢ <;> omega
  · refine ⟨by omega, ?_, ?_⟩
    · rw [Multiset.le_iff_count]
      intro x
      have hx := hsub x
      simp only [Multiset.insert_eq_cons, Multiset.count_cons,
        Multiset.count_singleton, Multiset.count_zero] at hx ⊢
      split_ifs at hx ⊢ <;> omega
    · intro x hx
      have hLx := hcnt x (lt_of_le_of_lt h2 hx)
      simp only [Multiset.insert_eq_cons, Multiset.count_cons,
        Multiset.count_singleton, Multiset.count_zero] at hLx ⊢
      split_ifs at hLx ⊢ <;> omega
  · refine ⟨hord, ?_, ?_⟩
    · rw [Multiset.le_iff_count]
      intro x
      have hx := hsub x
      simp only [Multiset.insert_eq_cons, Multiset.count_cons,
        Multiset.count_singleton, Multiset.count_zero] at hx ⊢
      split_ifs at hx ⊢ <;> omega
    · intro x hx
      have hLx := hcnt x hx
      simp only [Multiset.insert_eq_cons, Multiset.count_cons,
        Multiset.count_singleton, Multiset.count_zero] at hLx ⊢
      split_ifs at hLx ⊢ <;> omega

theorem twoLargest_apply_positive (s : AbilityModifier) (m : Int)
    (L : Multiset Int) (h : twoLargest L s.modifier_positive) :
    twoLargest (m ::ₘ L) ((s.apply_positive m).modifier_positive) := by
  have key := twoLargest_insert L s.modifier_positive.1
    s.modifier_positive.2 m h
  unfold AbilityModifier.apply_positive
  split_ifs at key ⊢ <;> simpa using key

theorem twoLargest_foldl (ms : List Int) :
    ∀ (s : AbilityModifier) (L : Multiset Int),
      twoLargest L s.modifier_positive →
      twoLargest (L + (ms : Multiset Int))
        ((ms.foldl AbilityModifier.apply_positive s).modifier_positive) := by
  induction ms with
  | nil => intro s L h; simpa using h
  | cons m ms ih =>
    intro s L h
    have hrec := ih (s.apply_positive m) (m ::ₘ L)
      (twoLargest_apply_positive s m L h)
    simpa [← Multiset.cons_coe, Multiset.add_cons, Multiset.cons_add]
      using hrec

/-- C2: `apply_positive` realizes exactly the spec's insertion rule, and
after any sequence of `apply_positive` calls from the default slots the
two positive slots are the two largest values among the applied amounts
and the two defaults 0, sorted descending; base 100 with +30, +50, +40
gives `value() = 190`. -/
theorem c2_apply_positive (s : AbilityModifier) (amount : Int)
    (a : Ability) (ms : List Int) :
    s.apply_positive amount = specApplyPositive s amount
    ∧ twoLargest (0 ::ₘ 0 ::ₘ (ms : Multiset Int))
        ((ms.foldl AbilityModifier.apply_positive
          (AbilityModifier.fromAbility a)).modifier_positive)
    ∧ (((((AbilityModifier.fromAbility (.Intelligence 100)
        ).apply_positive 30).apply_positive 50).apply_positive 40
        ).value).1 = 190 := by
  refine ⟨rfl, ?_, by decide⟩
  have h0 : twoLargest ({0, 0} : Multiset Int)
      ((AbilityModifier.fromAbility a).modifier_positive) := by
    refine ⟨le_refl 0, le_refl _, ?_⟩
    intro x hx
    simp only [AbilityModifier.fromAbility] at hx
    simp only [AbilityModifier.fromAbility, Multiset.insert_eq_cons,
      Multiset.count_cons, Multiset.count_singleton, Multiset.count_zero]
    split_ifs <;> omega
  have hfold := twoLargest_foldl ms (AbilityModifier.fromAbility a)
    ({0, 0} : Multiset Int) h0
  simpa [Multiset.insert_eq_cons, Multiset.cons_add] using hfold

end Ddlc
